import Mathlib

/-!
Shallow embedding of the 404 dead-link crawler (src/Source/404.py).

The crawler's orchestrator (`run`) owns all mutable state: a link cache,
statistics counters, a process exit status and the pool's frontier counter
(`pending_tasks`).  Workers execute `LinkTask.run`, which performs one HTTP
GET and optionally extracts links; the orchestrator consumes completed tasks
in an arbitrary completion order.  The embedding makes the network a total
oracle `web : String → FetchResult`, the completion order a scheduling
function `sched : Nat → Nat`, and the polling loop a fuelled recursion, so
every run of the Python program corresponds to a choice of oracle, schedule
and sufficient fuel.
-/

namespace Crawler404

/-! ### URL helpers (urllib.parse as the crawler uses it) -/

/-- Characters allowed in a URL scheme (`urllib.parse.scheme_chars`). -/
def isSchemeChar (c : Char) : Bool :=
  c.isAlphanum || c == '+' || c == '-' || c == '.'

/-- A nonempty candidate scheme whose head is a letter and whose characters
are all scheme characters, as `urlsplit` requires before it strips one. -/
def validSchemeChars (cs : List Char) : Bool :=
  match cs with
  | [] => false
  | c :: _ => c.isAlpha && cs.all isSchemeChar

/-- Splits a URL's characters at the scheme, as `urllib.parse.urlsplit` does:
the part before the first colon is a scheme when nonempty, letter-headed and
made of scheme characters; the scheme is lowercased.  Otherwise the whole
input is left as the remainder. -/
def splitSchemeChars (cs : List Char) : Option (List Char) × List Char :=
  if cs.dropWhile (fun c => c != ':') = [] then (none, cs)
  else if validSchemeChars (cs.takeWhile (fun c => c != ':')) then
    (some ((cs.takeWhile (fun c => c != ':')).map Char.toLower),
      (cs.dropWhile (fun c => c != ':')).drop 1)
  else (none, cs)

/-- Characters ending the netloc (authority) component. -/
def isNetlocStop (c : Char) : Bool := c == '/' || c == '?' || c == '#'

/-- The netloc of the remainder after the scheme: present only after a
leading `//`, running to the first `/`, `?` or `#`. -/
def netlocOfRest (rest : List Char) : List Char :=
  if rest.take 2 = ['/', '/'] then (rest.drop 2).takeWhile (fun c => !isNetlocStop c)
  else []

/-- `urllib.parse.urlparse(u).scheme` (lowercased; empty when absent). -/
def urlscheme (u : String) : String :=
  match (splitSchemeChars u.data).1 with
  | some s => ⟨s⟩
  | none => ⟨[]⟩

/-- `urllib.parse.urlparse(u).netloc`. -/
def urlnetloc (u : String) : String :=
  ⟨netlocOfRest (splitSchemeChars u.data).2⟩

/-- The URL part of `urllib.parse.urldefrag(u)`: everything before the first
`#`. -/
def urldefrag (u : String) : String :=
  ⟨u.data.takeWhile (fun c => c != '#')⟩

/-- What remains of the post-scheme part once a `//`-led netloc is removed. -/
def restAfterNetloc (rest : List Char) : List Char :=
  if rest.take 2 = ['/', '/'] then (rest.drop 2).dropWhile (fun c => !isNetlocStop c)
  else rest

/-- The directory part of a path: up to and including the last slash, `/`
when the path has no slash. -/
def dirOfPath (p : List Char) : List Char :=
  match (p.reverse.dropWhile (fun c => c != '/')).reverse with
  | [] => ['/']
  | d => d

/-- Models `urllib.parse.urljoin` on the reference shapes the crawler meets:
an absolute reference is kept, a scheme-relative or root-relative reference
takes the base's scheme (and authority), any other nonempty reference
resolves against the directory of the base's path.  Dot-segment
normalization is not modelled. -/
def urljoin (base url : String) : String :=
  match (splitSchemeChars url.data).1 with
  | some _ => url
  | none =>
    match url.data with
    | [] => base
    | '/' :: '/' :: _ => ⟨(urlscheme base).data ++ [':'] ++ url.data⟩
    | '/' :: _ =>
      ⟨(urlscheme base).data ++ [':', '/', '/'] ++ (urlnetloc base).data ++ url.data⟩
    | _ =>
      let rest := (splitSchemeChars base.data).2
      let path := (restAfterNetloc rest).takeWhile (fun c => !(c == '?' || c == '#'))
      ⟨(urlscheme base).data ++ [':', '/', '/'] ++ (urlnetloc base).data
        ++ dirOfPath path ++ url.data⟩

/-- Python `str.strip()` on both ends. -/
def pyStrip (s : String) : String :=
  ⟨((s.data.dropWhile Char.isWhitespace).reverse.dropWhile Char.isWhitespace).reverse⟩

def htmlMediaType : String := "text/html"

def xhtmlMediaType : String := "application/xhtml+xml"

/-- The content-type gate of `LinkTask.run`:
`content_type.strip().startswith(('text/html', 'application/xhtml+xml'))`. -/
def contentTypeOk (ct : String) : Bool :=
  htmlMediaType.data.isPrefixOf (pyStrip ct).data
    || xhtmlMediaType.data.isPrefixOf (pyStrip ct).data

def httpScheme : String := "http"

def httpsScheme : String := "https"

/-! ### Tasks (class LinkTask) -/

/-- The per-scope link policy (`--internal` / `--external`). -/
inductive Policy
  | check
  | ignore
  | follow
deriving DecidableEq, Repr

/-- A captured task-level failure: `requests.Timeout` is distinguished from
every other exception (`LinkTask.run`'s bare `except` plus the orchestrator's
`isinstance(exc_obj, Timeout)` test). -/
inductive TaskError
  | timeout
  | fetchError (msg : String)
deriving DecidableEq, Repr

/-- What a successful HTTP GET exposes to the task: the status code, the
`content-type` header (empty when missing, as `headers.get` defaults), and
the `href` / `src` attribute values of the page's anchor and image tags in
document order. -/
structure Response where
  status : Nat
  contentType : String
  ahrefs : List String
  imgsrcs : List String
deriving DecidableEq, Repr

/-- Outcome of one `requests.get` as the task observes it: an exception
before the status is known, an exception after the status was recorded
(while streaming or parsing the body), or a complete response. -/
inductive FetchResult
  | err (e : TaskError)
  | errAfterStatus (status : Nat) (e : TaskError)
  | success (r : Response)
deriving DecidableEq, Repr

/-- A `LinkTask`: the constructor arguments plus the three result slots
(`links`, `status`, `exception`) the worker fills in. -/
structure LinkTask where
  link : String
  parse_links : Bool
  timeout : Option Int
  allow_redirects : Bool
  links : List String
  status : Option Nat
  exception : Option TaskError
deriving DecidableEq, Repr

/-- `LinkTask.__init__`: result slots start empty. -/
def mkLinkTask (link : String) (parse_links : Bool) (timeout : Option Int)
    (allow_redirects : Bool) : LinkTask :=
  { link := link, parse_links := parse_links, timeout := timeout,
    allow_redirects := allow_redirects, links := [], status := none,
    exception := none }

/-- `LinkTask.run` given the fetch outcome: any failure is stored in the
`exception` slot and the method returns; on success the status is recorded,
then extraction happens only when requested, the status is not a 4xx/5xx,
and the content type passes; the extracted links are the anchor `href`
targets followed by the image `src` targets, each joined against the task's
own URL. -/
def LinkTask.runWith (t : LinkTask) (f : FetchResult) : LinkTask :=
  match f with
  | .err e => { t with exception := some e }
  | .errAfterStatus st e => { t with status := some st, exception := some e }
  | .success r =>
    let t1 := { t with status := some r.status }
    if !t1.parse_links then t1
    else if 400 ≤ r.status ∧ r.status < 600 then t1
    else if !contentTypeOk r.contentType then t1
    else
      { t1 with links := t1.links ++ (r.ahrefs.map (urljoin t1.link)
          ++ r.imgsrcs.map (urljoin t1.link)) }

/-! ### The orchestrator (function run) -/

/-- The configuration values `run` consumes (newline mode, quiet flag and
thread count only affect the excluded IO collaborators and the degree of
parallelism, not the modelled state). -/
structure Config where
  url : String
  allow_redirects : Bool
  internal : Policy
  external : Policy
  print_all : Bool
  timeout : Option Int
deriving DecidableEq, Repr

/-- `main`'s timeout computation: 0 (or any nonpositive value) becomes the
absent sentinel `None`; a positive value is kept. -/
def computeTimeout (t : Int) : Option Int :=
  if 0 < t then some t else none

/-- The orchestrator's state: the pool's outstanding tasks (todo + running
+ completed-but-unconsumed) with the frontier counter `pending_tasks`, the
link cache, exit status, statistics, the report lines written to stdout,
and — as a ghost log for the theorems — every task ever given to the pool. -/
structure CrawlState where
  pending : List LinkTask
  pending_tasks : Int
  link_cache : List String
  status : Nat
  st_total_links : Nat
  st_total_internal : Nat
  st_total_external : Nat
  st_error_task : Nat
  st_error_link : Nat
  reports : List (Nat × String)
  created : List LinkTask
deriving DecidableEq, Repr

/-- `run`'s setup: the pool gets one task for the seed with extraction on,
the link cache starts holding the seed URL verbatim, and the statistics
pre-count the seed as one internal link. -/
def initState (cfg : Config) : CrawlState :=
  let seedTask := mkLinkTask cfg.url true cfg.timeout cfg.allow_redirects
  { pending := [seedTask], pending_tasks := 1, link_cache := [cfg.url],
    status := 0, st_total_links := 1, st_total_internal := 1,
    st_total_external := 0, st_error_task := 0, st_error_link := 0,
    reports := [], created := [seedTask] }

/-- `pool.add_task` plus the `st_total_links += 1` that follows every call
the orchestrator loop makes. -/
def enqueueNew (cfg : Config) (s : CrawlState) (link : String) (get : Bool) :
    CrawlState :=
  let t := mkLinkTask link get cfg.timeout cfg.allow_redirects
  { s with
      pending := s.pending ++ [t]
      pending_tasks := s.pending_tasks + 1
      created := s.created ++ [t]
      st_total_links := s.st_total_links + 1 }

/-- The body of `for link in task.links`: strip the fragment, skip cached
links, cache the link before any further decision, skip non-http(s) schemes,
classify by netloc against the seed's netloc, apply the scope's policy and
enqueue a task whose extraction flag is `policy == follow`. -/
def processLink (cfg : Config) (netloc : String) (s : CrawlState)
    (rawLink : String) : CrawlState :=
  let link := urldefrag rawLink
  if link ∈ s.link_cache then s
  else if ¬ (urlscheme link = httpScheme ∨ urlscheme link = httpsScheme) then
    { s with link_cache := link :: s.link_cache }
  else if urlnetloc link = netloc then
    if cfg.internal = Policy.ignore then { s with link_cache := link :: s.link_cache }
    else
      enqueueNew cfg
        { s with
            link_cache := link :: s.link_cache
            st_total_internal := s.st_total_internal + 1 }
        link (decide (cfg.internal = Policy.follow))
  else
    if cfg.external = Policy.ignore then { s with link_cache := link :: s.link_cache }
    else
      enqueueNew cfg
        { s with
            link_cache := link :: s.link_cache
            st_total_external := s.st_total_external + 1 }
        link (decide (cfg.external = Policy.follow))

/-- The body of `for task in pool.poll_completed_tasks()`: a task carrying
an exception sets the exit status and the task-error statistic; otherwise
the (status, url) pair is reported when the status is a client/server error
or `--print-all` is on, the link-error statistic counts client/server
errors, and every discovered link is processed.  (The source's pair of
conditionals `if error or print_all: report` then `if error: count` is
written here as the equivalent three-way split on the same tests.) -/
def processTask (cfg : Config) (netloc : String) (s : CrawlState)
    (t : LinkTask) : CrawlState :=
  if t.exception.isSome then
    { s with status := 1, st_error_task := s.st_error_task + 1 }
  else
    t.links.foldl (processLink cfg netloc)
      (if 400 ≤ t.status.getD 0 ∧ t.status.getD 0 < 600 then
        { s with
            reports := s.reports ++ [(t.status.getD 0, t.link)]
            st_error_link := s.st_error_link + 1 }
      else if cfg.print_all then
        { s with reports := s.reports ++ [(t.status.getD 0, t.link)] }
      else s)

/-- One round of the orchestrator loop: some outstanding task — chosen by
the schedule, modelling the pool's nondeterministic completion order —
finishes against the network oracle, the frontier counter is decremented,
and the completed task is consumed. -/
def crawlStep (cfg : Config) (netloc : String) (web : String → FetchResult)
    (pick : Nat) (s : CrawlState) : CrawlState :=
  match s.pending with
  | [] => s
  | t0 :: _ =>
    processTask cfg netloc
      { s with
          pending := s.pending.eraseIdx (pick % s.pending.length)
          pending_tasks := s.pending_tasks - 1 }
      (LinkTask.runWith (s.pending.getD (pick % s.pending.length) t0)
        (web (s.pending.getD (pick % s.pending.length) t0).link))

/-- `pool.poll_completed_tasks`'s loop, fuelled: while the frontier counter
is positive, consume one more completed task. -/
def crawlLoop (cfg : Config) (netloc : String) (web : String → FetchResult)
    (sched : Nat → Nat) : Nat → Nat → CrawlState → CrawlState
  | 0, _, s => s
  | fuel + 1, n, s =>
    if 0 < s.pending_tasks then
      crawlLoop cfg netloc web sched fuel (n + 1) (crawlStep cfg netloc web (sched n) s)
    else s

/-- A whole run of `run`: setup, then the orchestrator loop (the netloc the
loop classifies against is the seed's). -/
def crawlRun (cfg : Config) (web : String → FetchResult) (sched : Nat → Nat)
    (fuel : Nat) : CrawlState :=
  crawlLoop cfg (urlnetloc cfg.url) web sched fuel 0 (initState cfg)

/-! ### Invariants of the orchestrator state -/

/-- The frontier-counter invariant: `pending_tasks` is exactly the number of
outstanding tasks (created and not yet consumed). -/
def CounterInv (s : CrawlState) : Prop :=
  s.pending_tasks = s.pending.length

/-- Every task the pool ever received is, fragment-stripped, in the link
cache, and no two of them share a fragment-stripped URL. -/
def DedupInv (s : CrawlState) : Prop :=
  (∀ t ∈ s.created, urldefrag t.link ∈ s.link_cache) ∧
    (s.created.map (fun t => urldefrag t.link)).Nodup

/-- Every outstanding task is fresh (empty result slots) and carries the
configuration's timeout and redirect flag. -/
def FreshInv (cfg : Config) (s : CrawlState) : Prop :=
  ∀ t ∈ s.pending, t = mkLinkTask t.link t.parse_links cfg.timeout cfg.allow_redirects

/-- Every task ever handed to the pool carries the configured timeout. -/
def TimeoutInv (cfg : Config) (s : CrawlState) : Prop :=
  ∀ t ∈ s.created, t.timeout = cfg.timeout

/-- The exit status is 1 exactly when a task-level error was counted, and it
is never anything but 0 or 1. -/
def StatusInv (s : CrawlState) : Prop :=
  (s.status = 1 ↔ s.st_error_task ≠ 0) ∧ (s.status = 0 ∨ s.status = 1)

/-- Beyond the seed, every task ever created is for a link whose netloc
differs from `netloc` (the loop's classification reference). -/
def ExtOnlyInv (netloc : String) (s : CrawlState) : Prop :=
  s.created ≠ [] ∧ ∀ t ∈ s.created.drop 1, urlnetloc t.link ≠ netloc

/-- Termination measure: twice the number of `uni` members not yet cached,
plus the number of outstanding tasks.  Every loop round strictly decreases
it when each discovered link lands (fragment-stripped) in `uni`. -/
def crawlMeasure (uni : List String) (s : CrawlState) : Nat :=
  2 * (uni.filter (fun x => decide (x ∉ s.link_cache))).length + s.pending.length

/-! ### Concrete instances used by the witnesses and counterexamples -/

/-- A small concrete configuration. -/
def cfgA : Config :=
  { url := "http://a/", allow_redirects := true, internal := Policy.check,
    external := Policy.check, print_all := false, timeout := some 10 }

/-- The same configuration with a fragment on the seed URL. -/
def cfgFrag : Config := { cfgA with url := "http://a/#f" }

/-- Internal links ignored, external links followed. -/
def cfgPol : Config := { cfgA with internal := Policy.ignore, external := Policy.follow }

/-- The 404 scenario's configuration. -/
def cfg404 : Config := { cfgA with url := "http://example.test/" }

/-- A network oracle where every request times out. -/
def webDown : String → FetchResult := fun _ => FetchResult.err TaskError.timeout

/-- A network oracle: the fragment-carrying seed serves one anchor pointing
at the seed's fragment-stripped URL; every other page is bare. -/
def webFrag : String → FetchResult := fun u =>
  if u = cfgFrag.url then
    FetchResult.success
      { status := 200, contentType := htmlMediaType, ahrefs := ["http://a/"], imgsrcs := [] }
  else
    FetchResult.success
      { status := 200, contentType := htmlMediaType, ahrefs := [], imgsrcs := [] }

/-- A network oracle where every page answers 404 with an HTML body that
still contains an anchor (whose extraction the status must prevent). -/
def web404 : String → FetchResult := fun _ =>
  FetchResult.success
    { status := 404, contentType := htmlMediaType,
      ahrefs := ["http://example.test/other"], imgsrcs := [] }

/-- A network oracle serving one external link from the seed page. -/
def webExt : String → FetchResult := fun u =>
  if u = cfgA.url then
    FetchResult.success
      { status := 200, contentType := htmlMediaType, ahrefs := ["http://b/x"], imgsrcs := [] }
  else
    FetchResult.success
      { status := 200, contentType := htmlMediaType, ahrefs := [], imgsrcs := [] }

/-- The deterministic schedule that always completes the oldest task. -/
def schedZero : Nat → Nat := fun _ => 0

/-- A completed error-free task with a 404 status, as the witnesses use. -/
def wTask : LinkTask :=
  { mkLinkTask "http://x/" false (some 10) true with status := some 404 }

/-- The seed task of `cfgA`, used by the witnesses. -/
def seedTaskA : LinkTask := mkLinkTask cfgA.url true cfgA.timeout cfgA.allow_redirects

end Crawler404

namespace Crawler404

/-! ### Generic preservation machinery -/

theorem foldl_preserve {α : Type} {P : CrawlState → Prop} {f : CrawlState → α → CrawlState}
    (hf : ∀ s x, P s → P (f s x)) :
    ∀ (L : List α) (s : CrawlState), P s → P (L.foldl f s) := by
  intro L
  induction L with
  | nil => intro s hs; exact hs
  | cons a L ih => intro s hs; exact ih _ (hf _ _ hs)

theorem crawlStep_preserve {cfg : Config} {netloc : String} {web : String → FetchResult}
    {P : CrawlState → Prop}
    (herase : ∀ (s : CrawlState) (i : Nat), i < s.pending.length → P s →
      P { s with pending := s.pending.eraseIdx i, pending_tasks := s.pending_tasks - 1 })
    (htask : ∀ s t, P s → P (processTask cfg netloc s t))
    (pick : Nat) (s : CrawlState) (hs : P s) : P (crawlStep cfg netloc web pick s) := by
  unfold crawlStep
  split
  · exact hs
  · rename_i t0 rest heq
    refine htask _ _ (herase _ _ ?_ hs)
    rw [heq]
    exact Nat.mod_lt _ (by simp)

theorem crawlLoop_preserve {cfg : Config} {netloc : String} {web : String → FetchResult}
    {sched : Nat → Nat} {P : CrawlState → Prop}
    (hstep : ∀ pick s, P s → P (crawlStep cfg netloc web pick s)) :
    ∀ (fuel n : Nat) (s : CrawlState), P s → P (crawlLoop cfg netloc web sched fuel n s) := by
  intro fuel
  induction fuel with
  | zero => intro n s hs; exact hs
  | succ k ih =>
    intro n s hs
    rw [crawlLoop]
    split
    · exact ih _ _ (hstep _ _ hs)
    · exact hs

/-! ### The four possible outcomes of consuming one discovered link -/

theorem processLink_cases (cfg : Config) (netloc : String) (s : CrawlState) (raw : String) :
    processLink cfg netloc s raw = s ∨
    processLink cfg netloc s raw = { s with link_cache := urldefrag raw :: s.link_cache } ∨
    (urldefrag raw ∉ s.link_cache ∧ cfg.internal ≠ Policy.ignore ∧
      processLink cfg netloc s raw =
        enqueueNew cfg
          { s with
              link_cache := urldefrag raw :: s.link_cache
              st_total_internal := s.st_total_internal + 1 }
          (urldefrag raw) (decide (cfg.internal = Policy.follow)) ∧
      urlnetloc (urldefrag raw) = netloc) ∨
    (urldefrag raw ∉ s.link_cache ∧ cfg.external ≠ Policy.ignore ∧
      processLink cfg netloc s raw =
        enqueueNew cfg
          { s with
              link_cache := urldefrag raw :: s.link_cache
              st_total_external := s.st_total_external + 1 }
          (urldefrag raw) (decide (cfg.external = Policy.follow)) ∧
      urlnetloc (urldefrag raw) ≠ netloc) := by
  unfold processLink
  by_cases h1 : urldefrag raw ∈ s.link_cache
  · left; rw [if_pos h1]
  · rw [if_neg h1]
    by_cases h2 : ¬ (urlscheme (urldefrag raw) = httpScheme ∨ urlscheme (urldefrag raw) = httpsScheme)
    · right; left; rw [if_pos h2]
    · rw [if_neg h2]
      by_cases h3 : urlnetloc (urldefrag raw) = netloc
      · rw [if_pos h3]
        by_cases h4 : cfg.internal = Policy.ignore
        · right; left; rw [if_pos h4]
        · rw [if_neg h4]; right; right; left; exact ⟨h1, h4, rfl, h3⟩
      · rw [if_neg h3]
        by_cases h5 : cfg.external = Policy.ignore
        · right; left; rw [if_pos h5]
        · rw [if_neg h5]; right; right; right; exact ⟨h1, h5, rfl, h3⟩

/-! ### The frontier counter -/

theorem counterInv_processLink (cfg : Config) (netloc : String) (s : CrawlState)
    (raw : String) (hs : CounterInv s) : CounterInv (processLink cfg netloc s raw) := by
  unfold CounterInv at *
  rcases processLink_cases cfg netloc s raw with h | h | ⟨-, -, h, -⟩ | ⟨-, -, h, -⟩ <;> rw [h]
  · exact hs
  · exact hs
  · simp [enqueueNew]; omega
  · simp [enqueueNew]; omega

theorem counterInv_processTask (cfg : Config) (netloc : String) (s : CrawlState)
    (t : LinkTask) (hs : CounterInv s) : CounterInv (processTask cfg netloc s t) := by
  unfold processTask
  split
  · simpa [CounterInv] using hs
  · refine foldl_preserve (fun s' x h => counterInv_processLink cfg netloc s' x h) _ _ ?_
    split_ifs <;> simpa [CounterInv] using hs

theorem counterInv_crawlStep (cfg : Config) (netloc : String) (web : String → FetchResult)
    (pick : Nat) (s : CrawlState) (hs : CounterInv s) :
    CounterInv (crawlStep cfg netloc web pick s) := by
  refine crawlStep_preserve ?_ (counterInv_processTask cfg netloc) pick s hs
  intro s' i hi h
  unfold CounterInv at *
  simp [List.length_eraseIdx_of_lt hi]
  omega

theorem counterInv_crawlRun (cfg : Config) (web : String → FetchResult)
    (sched : Nat → Nat) (fuel : Nat) : CounterInv (crawlRun cfg web sched fuel) := by
  refine crawlLoop_preserve (counterInv_crawlStep cfg _ web) fuel 0 _ ?_
  simp [CounterInv, initState]

/-! ### Freshness of outstanding tasks -/

theorem freshInv_processLink (cfg : Config) (netloc : String) (s : CrawlState)
    (raw : String) (hs : FreshInv cfg s) : FreshInv cfg (processLink cfg netloc s raw) := by
  rcases processLink_cases cfg netloc s raw with h | h | ⟨-, -, h, -⟩ | ⟨-, -, h, -⟩ <;> rw [h]
  · exact hs
  · exact hs
  all_goals
    intro t ht
    simp only [enqueueNew] at ht
    rcases List.mem_append.mp ht with h1 | h1
    · exact hs t h1
    · simp only [List.mem_singleton] at h1
      subst h1
      rfl

theorem freshInv_processTask (cfg : Config) (netloc : String) (s : CrawlState)
    (t : LinkTask) (hs : FreshInv cfg s) : FreshInv cfg (processTask cfg netloc s t) := by
  unfold processTask
  split
  · exact hs
  · refine foldl_preserve (fun s' x h => freshInv_processLink cfg netloc s' x h) _ _ ?_
    split_ifs <;> exact hs

theorem freshInv_crawlStep (cfg : Config) (netloc : String) (web : String → FetchResult)
    (pick : Nat) (s : CrawlState) (hs : FreshInv cfg s) :
    FreshInv cfg (crawlStep cfg netloc web pick s) := by
  refine crawlStep_preserve ?_ (freshInv_processTask cfg netloc) pick s hs
  intro s' i hi h t ht
  exact h t (List.mem_of_mem_eraseIdx ht)

theorem freshInv_initState (cfg : Config) : FreshInv cfg (initState cfg) := by
  intro t ht
  simp only [initState, List.mem_singleton] at ht
  subst ht
  rfl

/-! ### The termination measure -/

theorem uncached_mono (uni c c' : List String) (hsub : ∀ x ∈ c, x ∈ c') :
    (uni.filter (fun x => decide (x ∉ c'))).length ≤
      (uni.filter (fun x => decide (x ∉ c))).length := by
  rw [← List.countP_eq_length_filter, ← List.countP_eq_length_filter]
  refine List.countP_mono_left ?_
  intro x _ h
  simp only [decide_eq_true_eq] at *
  exact fun hc => h (hsub x hc)

theorem uncached_insert (uni c : List String) (l : String) (hl : l ∈ uni) (hc : l ∉ c) :
    (uni.filter (fun x => decide (x ∉ l :: c))).length + 1 ≤
      (uni.filter (fun x => decide (x ∉ c))).length := by
  induction uni with
  | nil => cases hl
  | cons a uni ih =>
    by_cases ha : a = l
    · subst ha
      rw [List.filter_cons_of_neg (by simp), List.filter_cons_of_pos (by simpa using hc)]
      simp only [List.length_cons]
      have := uncached_mono uni c (a :: c) (fun x hx => List.mem_cons_of_mem _ hx)
      omega
    · have hl2 : l ∈ uni := by
        rcases List.mem_cons.mp hl with h | h
        · exact absurd h.symm ha
        · exact h
      by_cases hac : a ∈ c
      · rw [List.filter_cons_of_neg (by simp [hac]), List.filter_cons_of_neg (by simp [hac])]
        exact ih hl2
      · rw [List.filter_cons_of_pos (by simp [hac, ha]), List.filter_cons_of_pos (by simp [hac])]
        simp only [List.length_cons]
        have := ih hl2
        omega

theorem crawlMeasure_processLink (uni : List String) (cfg : Config) (netloc : String)
    (s : CrawlState) (raw : String) (hraw : urldefrag raw ∈ uni) :
    crawlMeasure uni (processLink cfg netloc s raw) ≤ crawlMeasure uni s := by
  rcases processLink_cases cfg netloc s raw with h | h | ⟨hnc, -, h, -⟩ | ⟨hnc, -, h, -⟩ <;> rw [h]
  · unfold crawlMeasure
    have := uncached_mono uni s.link_cache (urldefrag raw :: s.link_cache)
      (fun x hx => List.mem_cons_of_mem _ hx)
    dsimp only
    omega
  all_goals
    unfold crawlMeasure
    have := uncached_insert uni s.link_cache (urldefrag raw) hraw hnc
    dsimp only [enqueueNew]
    rw [List.length_append]
    simp only [List.length_cons, List.length_nil]
    omega

theorem crawlMeasure_foldl (uni : List String) (cfg : Config) (netloc : String)
    (L : List String) (s : CrawlState) (hL : ∀ raw ∈ L, urldefrag raw ∈ uni) :
    crawlMeasure uni (L.foldl (processLink cfg netloc) s) ≤ crawlMeasure uni s := by
  induction L generalizing s with
  | nil => exact le_refl _
  | cons a L ih =>
    refine le_trans (ih _ (fun raw hr => hL raw (List.mem_cons_of_mem _ hr))) ?_
    exact crawlMeasure_processLink uni cfg netloc s a (hL a (List.mem_cons_self a L))

theorem crawlMeasure_processTask (uni : List String) (cfg : Config) (netloc : String)
    (s : CrawlState) (t : LinkTask) (hlinks : ∀ raw ∈ t.links, urldefrag raw ∈ uni) :
    crawlMeasure uni (processTask cfg netloc s t) ≤ crawlMeasure uni s := by
  unfold processTask
  split
  · exact le_refl _
  · refine le_trans (crawlMeasure_foldl uni cfg netloc t.links _ hlinks) ?_
    split_ifs <;> exact le_refl _

theorem crawlMeasure_crawlStep (uni : List String) (cfg : Config) (netloc : String)
    (web : String → FetchResult) (pick : Nat) (s : CrawlState)
    (hne : s.pending ≠ []) (hfresh : FreshInv cfg s)
    (hweb : ∀ (u : String) (b : Bool),
      ∀ l ∈ (LinkTask.runWith (mkLinkTask u b cfg.timeout cfg.allow_redirects) (web u)).links,
        urldefrag l ∈ uni) :
    crawlMeasure uni (crawlStep cfg netloc web pick s) < crawlMeasure uni s := by
  unfold crawlStep
  split
  · rename_i heq
    exact absurd heq hne
  · rename_i t0 rest heq
    have hilt : pick % s.pending.length < s.pending.length := by
      rw [heq]
      exact Nat.mod_lt _ (by simp)
    have hmem : s.pending.getD (pick % s.pending.length) t0 ∈ s.pending := by
      rw [List.getD_eq_getElem _ _ hilt]
      exact List.getElem_mem _
    have ht := hfresh _ hmem
    have hlinks : ∀ l ∈ (LinkTask.runWith (s.pending.getD (pick % s.pending.length) t0)
        (web (s.pending.getD (pick % s.pending.length) t0).link)).links, urldefrag l ∈ uni := by
      intro l hl
      have hw := hweb (s.pending.getD (pick % s.pending.length) t0).link
        (s.pending.getD (pick % s.pending.length) t0).parse_links
      rw [← ht] at hw
      exact hw l hl
    refine lt_of_le_of_lt (crawlMeasure_processTask uni cfg netloc _ _ hlinks) ?_
    unfold crawlMeasure
    simp only [List.length_eraseIdx_of_lt hilt]
    omega

/-! ### Termination of the orchestrator loop -/

theorem crawlLoop_terminates (uni : List String) (cfg : Config) (netloc : String)
    (web : String → FetchResult) (sched : Nat → Nat)
    (hweb : ∀ (u : String) (b : Bool),
      ∀ l ∈ (LinkTask.runWith (mkLinkTask u b cfg.timeout cfg.allow_redirects) (web u)).links,
        urldefrag l ∈ uni) :
    ∀ (fuel n : Nat) (s : CrawlState), FreshInv cfg s → CounterInv s →
      crawlMeasure uni s ≤ fuel →
      (crawlLoop cfg netloc web sched fuel n s).pending = [] ∧
      (crawlLoop cfg netloc web sched fuel n s).pending_tasks = 0 := by
  intro fuel
  induction fuel with
  | zero =>
    intro n s hf hc hm
    unfold CounterInv at hc
    unfold crawlMeasure at hm
    have hp : s.pending.length = 0 := by omega
    refine ⟨?_, ?_⟩ <;> simp only [crawlLoop]
    · exact List.length_eq_zero.mp hp
    · omega
  | succ k ih =>
    intro n s hf hc hm
    rw [crawlLoop]
    by_cases hpos : 0 < s.pending_tasks
    · rw [if_pos hpos]
      have hne : s.pending ≠ [] := by
        intro he
        unfold CounterInv at hc
        rw [he] at hc
        simp at hc
        omega
      have hlt := crawlMeasure_crawlStep uni cfg netloc web (sched n) s hne hf hweb
      exact ih (n + 1) _ (freshInv_crawlStep cfg netloc web (sched n) s hf)
        (counterInv_crawlStep cfg netloc web (sched n) s hc) (by omega)
    · rw [if_neg hpos]
      unfold CounterInv at hc
      have hz : s.pending_tasks = 0 := by omega
      have hlen : s.pending.length = 0 := by omega
      exact ⟨List.length_eq_zero.mp hlen, hz⟩

/-! ### Exit status -/

theorem statusInv_processLink (cfg : Config) (netloc : String) (s : CrawlState)
    (raw : String) (hs : StatusInv s) : StatusInv (processLink cfg netloc s raw) := by
  rcases processLink_cases cfg netloc s raw with h | h | ⟨-, -, h, -⟩ | ⟨-, -, h, -⟩ <;> rw [h]
  · exact hs
  · exact hs
  · exact hs
  · exact hs

theorem statusInv_processTask (cfg : Config) (netloc : String) (s : CrawlState)
    (t : LinkTask) (hs : StatusInv s) : StatusInv (processTask cfg netloc s t) := by
  unfold processTask
  split
  · refine ⟨⟨fun _ => ?_, fun _ => rfl⟩, Or.inr rfl⟩
    dsimp only
    omega
  · refine foldl_preserve (fun s' x h => statusInv_processLink cfg netloc s' x h) _ _ ?_
    split_ifs <;> exact hs

theorem statusInv_crawlStep (cfg : Config) (netloc : String) (web : String → FetchResult)
    (pick : Nat) (s : CrawlState) (hs : StatusInv s) :
    StatusInv (crawlStep cfg netloc web pick s) := by
  refine crawlStep_preserve ?_ (statusInv_processTask cfg netloc) pick s hs
  intro s' i hi h
  exact h

theorem statusInv_crawlRun (cfg : Config) (web : String → FetchResult)
    (sched : Nat → Nat) (fuel : Nat) : StatusInv (crawlRun cfg web sched fuel) := by
  refine crawlLoop_preserve (statusInv_crawlStep cfg _ web) fuel 0 _ ?_
  simp [StatusInv, initState]

/-! ### Task timeouts -/

theorem timeoutInv_processLink (cfg : Config) (netloc : String) (s : CrawlState)
    (raw : String) (hs : TimeoutInv cfg s) : TimeoutInv cfg (processLink cfg netloc s raw) := by
  rcases processLink_cases cfg netloc s raw with h | h | ⟨-, -, h, -⟩ | ⟨-, -, h, -⟩ <;> rw [h]
  · exact hs
  · exact hs
  all_goals
    intro t ht
    simp only [enqueueNew] at ht
    rcases List.mem_append.mp ht with h1 | h1
    · exact hs t h1
    · simp only [List.mem_singleton] at h1
      subst h1
      rfl

theorem timeoutInv_processTask (cfg : Config) (netloc : String) (s : CrawlState)
    (t : LinkTask) (hs : TimeoutInv cfg s) : TimeoutInv cfg (processTask cfg netloc s t) := by
  unfold processTask
  split
  · exact hs
  · refine foldl_preserve (fun s' x h => timeoutInv_processLink cfg netloc s' x h) _ _ ?_
    split_ifs <;> exact hs

theorem timeoutInv_crawlStep (cfg : Config) (netloc : String) (web : String → FetchResult)
    (pick : Nat) (s : CrawlState) (hs : TimeoutInv cfg s) :
    TimeoutInv cfg (crawlStep cfg netloc web pick s) := by
  refine crawlStep_preserve ?_ (timeoutInv_processTask cfg netloc) pick s hs
  intro s' i hi h
  exact h

theorem timeoutInv_crawlRun (cfg : Config) (web : String → FetchResult)
    (sched : Nat → Nat) (fuel : Nat) : TimeoutInv cfg (crawlRun cfg web sched fuel) := by
  refine crawlLoop_preserve (timeoutInv_crawlStep cfg _ web) fuel 0 _ ?_
  intro t ht
  simp only [initState, List.mem_singleton] at ht
  subst ht
  rfl

/-! ### Deduplication -/

theorem urldefrag_idem (u : String) : urldefrag (urldefrag u) = urldefrag u := by
  simp [urldefrag, List.takeWhile_idem]

theorem dedupInv_processLink (cfg : Config) (netloc : String) (s : CrawlState)
    (raw : String) (hs : DedupInv s) : DedupInv (processLink cfg netloc s raw) := by
  obtain ⟨h1, h2⟩ := hs
  rcases processLink_cases cfg netloc s raw with h | h | ⟨hnc, -, h, -⟩ | ⟨hnc, -, h, -⟩ <;> rw [h]
  · exact ⟨h1, h2⟩
  · exact ⟨fun t ht => List.mem_cons_of_mem _ (h1 t ht), h2⟩
  all_goals
    constructor
    · intro t ht
      dsimp only [enqueueNew] at ht ⊢
      rcases List.mem_append.mp ht with hm | hm
      · exact List.mem_cons_of_mem _ (h1 t hm)
      · simp only [List.mem_singleton] at hm
        subst hm
        dsimp only [mkLinkTask]
        rw [urldefrag_idem]
        exact List.mem_cons_self _ _
    · dsimp only [enqueueNew]
      rw [List.map_append, List.nodup_append]
      refine ⟨h2, by simp, ?_⟩
      intro x hx hx2
      simp only [List.map_cons, List.map_nil, List.mem_singleton] at hx2
      rw [List.mem_map] at hx
      obtain ⟨t, htc, rfl⟩ := hx
      have hin := h1 t htc
      dsimp only [mkLinkTask] at hx2
      rw [urldefrag_idem] at hx2
      rw [hx2] at hin
      exact hnc hin

theorem dedupInv_processTask (cfg : Config) (netloc : String) (s : CrawlState)
    (t : LinkTask) (hs : DedupInv s) : DedupInv (processTask cfg netloc s t) := by
  unfold processTask
  split
  · exact hs
  · refine foldl_preserve (fun s' x h => dedupInv_processLink cfg netloc s' x h) _ _ ?_
    split_ifs <;> exact hs

theorem dedupInv_crawlStep (cfg : Config) (netloc : String) (web : String → FetchResult)
    (pick : Nat) (s : CrawlState) (hs : DedupInv s) :
    DedupInv (crawlStep cfg netloc web pick s) := by
  refine crawlStep_preserve ?_ (dedupInv_processTask cfg netloc) pick s hs
  intro s' i hi h
  exact h

theorem dedupInv_crawlRun (cfg : Config) (web : String → FetchResult)
    (sched : Nat → Nat) (fuel : Nat) (hseed : urldefrag cfg.url = cfg.url) :
    DedupInv (crawlRun cfg web sched fuel) := by
  refine crawlLoop_preserve (dedupInv_crawlStep cfg _ web) fuel 0 _ ?_
  constructor
  · intro t ht
    simp only [initState, List.mem_singleton] at ht
    subst ht
    dsimp only [mkLinkTask]
    rw [hseed]
    simp [initState]
  · simp [initState]

/-! ### Internal links are never enqueued under internal=ignore -/

theorem extOnlyInv_processLink (cfg : Config) (netloc : String) (s : CrawlState)
    (raw : String) (hint : cfg.internal = Policy.ignore) (hs : ExtOnlyInv netloc s) :
    ExtOnlyInv netloc (processLink cfg netloc s raw) := by
  obtain ⟨hne, hdrop⟩ := hs
  rcases processLink_cases cfg netloc s raw with h | h | ⟨-, hpol, -, -⟩ | ⟨-, -, h, hnet⟩
  · rw [h]; exact ⟨hne, hdrop⟩
  · rw [h]; exact ⟨hne, hdrop⟩
  · exact absurd hint hpol
  · rw [h]
    constructor
    · dsimp only [enqueueNew]
      simp
    · intro t ht
      dsimp only [enqueueNew] at ht
      rw [List.drop_append_of_le_length (by simpa using List.length_pos.mpr hne)] at ht
      rcases List.mem_append.mp ht with hm | hm
      · exact hdrop t hm
      · simp only [List.mem_singleton] at hm
        subst hm
        exact hnet

theorem extOnlyInv_processTask (cfg : Config) (netloc : String) (s : CrawlState)
    (t : LinkTask) (hint : cfg.internal = Policy.ignore) (hs : ExtOnlyInv netloc s) :
    ExtOnlyInv netloc (processTask cfg netloc s t) := by
  unfold processTask
  split
  · exact hs
  · refine foldl_preserve (fun s' x h => extOnlyInv_processLink cfg netloc s' x hint h) _ _ ?_
    split_ifs <;> exact hs

theorem extOnlyInv_crawlStep (cfg : Config) (netloc : String) (web : String → FetchResult)
    (pick : Nat) (s : CrawlState) (hint : cfg.internal = Policy.ignore)
    (hs : ExtOnlyInv netloc s) : ExtOnlyInv netloc (crawlStep cfg netloc web pick s) := by
  refine crawlStep_preserve ?_ (fun s' t h => extOnlyInv_processTask cfg netloc s' t hint h) pick s hs
  intro s' i hi h
  exact h

theorem extOnlyInv_crawlRun (cfg : Config) (web : String → FetchResult)
    (sched : Nat → Nat) (fuel : Nat) (hint : cfg.internal = Policy.ignore) :
    ExtOnlyInv (urlnetloc cfg.url) (crawlRun cfg web sched fuel) := by
  refine crawlLoop_preserve
    (fun pick s h => extOnlyInv_crawlStep cfg _ web pick s hint h) fuel 0 _ ?_
  constructor
  · simp [initState]
  · intro t ht
    simp [initState] at ht

/-! ### Reports -/

theorem reports_processLink (cfg : Config) (netloc : String) (s : CrawlState)
    (raw : String) : (processLink cfg netloc s raw).reports = s.reports := by
  rcases processLink_cases cfg netloc s raw with h | h | ⟨-, -, h, -⟩ | ⟨-, -, h, -⟩ <;> rw [h]
  all_goals rfl

theorem reports_foldl (cfg : Config) (netloc : String) (L : List String) (s : CrawlState) :
    (L.foldl (processLink cfg netloc) s).reports = s.reports := by
  induction L generalizing s with
  | nil => rfl
  | cons a L ih => rw [List.foldl_cons, ih, reports_processLink]

theorem processTask_reports (cfg : Config) (netloc : String) (s : CrawlState)
    (t : LinkTask) (hexc : t.exception = none) :
    (processTask cfg netloc s t).reports =
      s.reports ++
        (if (400 ≤ t.status.getD 0 ∧ t.status.getD 0 < 600) ∨ cfg.print_all then
          [(t.status.getD 0, t.link)]
        else []) := by
  unfold processTask
  rw [if_neg (by simp [hexc])]
  rw [reports_foldl]
  split_ifs <;> first | rfl | tauto | simp

/-! ### Netloc extraction facts -/

theorem takeWhile_append_singleton_of_neg {p : Char → Bool} (x : Char) (hx : p x = false) :
    ∀ l : List Char, (l ++ [x]).takeWhile p = l.takeWhile p := by
  intro l
  induction l with
  | nil =>
    rw [List.nil_append, List.takeWhile_nil, List.takeWhile_cons_of_neg (by simp [hx])]
  | cons a l ih =>
    by_cases ha : p a = true
    · rw [List.cons_append, List.takeWhile_cons_of_pos ha, List.takeWhile_cons_of_pos ha, ih]
    · rw [List.cons_append, List.takeWhile_cons_of_neg (by simp [ha]),
        List.takeWhile_cons_of_neg (by simp [ha])]

theorem splitScheme_snd_append_slash (cs : List Char) :
    (splitSchemeChars (cs ++ ['/'])).2 = (splitSchemeChars cs).2 ++ ['/'] := by
  by_cases hd : cs.dropWhile (fun c => c != ':') = []
  · have hL : (cs ++ ['/']).dropWhile (fun c => c != ':') = [] := by
      rw [List.dropWhile_append, hd]
      simp
    unfold splitSchemeChars
    rw [if_pos hL, if_pos hd]
  · obtain ⟨a, as, ha⟩ := List.exists_cons_of_ne_nil hd
    have hL : (cs ++ ['/']).dropWhile (fun c => c != ':') =
        cs.dropWhile (fun c => c != ':') ++ ['/'] := by
      rw [List.dropWhile_append, ha]
      simp
    have hLne : (cs ++ ['/']).dropWhile (fun c => c != ':') ≠ [] := by
      rw [hL, ha]
      simp
    have htk : (cs ++ ['/']).takeWhile (fun c => c != ':') =
        cs.takeWhile (fun c => c != ':') := by
      rw [List.takeWhile_append]
      rw [if_neg ?hlen]
      case hlen =>
        intro he
        have hsum := congrArg List.length
          (List.takeWhile_append_dropWhile (fun c => c != ':') cs)
        rw [List.length_append, he, ha] at hsum
        simp only [List.length_cons] at hsum
        omega
    unfold splitSchemeChars
    rw [if_neg hLne, if_neg hd, htk]
    by_cases hv : validSchemeChars (cs.takeWhile (fun c => c != ':')) = true
    · rw [if_pos hv, if_pos hv]
      dsimp only
      rw [hL, ha]
      simp
    · rw [if_neg hv, if_neg hv]

theorem netlocOfRest_append_slash (rs : List Char) :
    netlocOfRest (rs ++ ['/']) = netlocOfRest rs := by
  unfold netlocOfRest
  rcases rs with _ | ⟨a, _ | ⟨b, r⟩⟩
  · rfl
  · by_cases hab : a = '/'
    · subst hab
      rw [if_pos (by rfl), if_neg (by simp)]
      rfl
    · rw [if_neg (by simpa using hab), if_neg (by simp)]
  · by_cases hab : a = '/' ∧ b = '/'
    · obtain ⟨rfl, rfl⟩ := hab
      rw [if_pos (by rfl), if_pos (by rfl)]
      simp only [List.cons_append, List.drop_succ_cons, List.drop_zero]
      exact takeWhile_append_singleton_of_neg '/' (by decide) r
    · have hcl : ¬ ((((a :: b :: r) ++ ['/']).take 2) = ['/', '/']) := by
        simp only [List.cons_append, List.take_succ_cons, List.take_zero]
        simpa using hab
      have hcr : ¬ (((a :: b :: r).take 2) = ['/', '/']) := by
        simp only [List.take_succ_cons, List.take_zero]
        simpa using hab
      rw [if_neg hcl, if_neg hcr]

theorem urlnetloc_trailing_slash (u : String) : urlnetloc (u ++ "/") = urlnetloc u := by
  unfold urlnetloc
  have hdata : (u ++ "/").data = u.data ++ ['/'] := by
    rw [String.data_append]
  rw [hdata, splitScheme_snd_append_slash, netlocOfRest_append_slash]

theorem schemeChar_ne_colon (c : Char) (h : isSchemeChar c = true) : (c != ':') = true := by
  by_cases hc : c = ':'
  · subst hc
    exact absurd h (by decide)
  · simpa using hc

theorem splitScheme_of_valid (sch rest : List Char) (hv : validSchemeChars sch = true) :
    splitSchemeChars (sch ++ ':' :: rest) = (some (sch.map Char.toLower), rest) := by
  have hall : ∀ c ∈ sch, (fun x => x != ':') c = true := by
    intro c hcs
    apply schemeChar_ne_colon
    cases sch with
    | nil => cases hcs
    | cons a as =>
      unfold validSchemeChars at hv
      rw [Bool.and_eq_true, List.all_eq_true] at hv
      exact hv.2 c hcs
  have hdw : (sch ++ ':' :: rest).dropWhile (fun c => c != ':') = ':' :: rest := by
    rw [List.dropWhile_append_of_pos hall, List.dropWhile_cons_of_neg (by decide)]
  have htw : (sch ++ ':' :: rest).takeWhile (fun c => c != ':') = sch := by
    rw [List.takeWhile_append_of_pos hall, List.takeWhile_cons_of_neg (by decide),
      List.append_nil]
  unfold splitSchemeChars
  rw [hdw, htw]
  rw [if_neg (by simp), if_pos hv]
  rfl

theorem urlnetloc_scheme_case (sch1 sch2 rest : String)
    (hv1 : validSchemeChars sch1.data = true) (hv2 : validSchemeChars sch2.data = true) :
    urlnetloc (sch1 ++ ":" ++ rest) = urlnetloc (sch2 ++ ":" ++ rest) := by
  have hdata : ∀ sch : String, (sch ++ ":" ++ rest).data = sch.data ++ ':' :: rest.data := by
    intro sch
    rw [String.data_append, String.data_append, List.append_assoc]
    rfl
  unfold urlnetloc
  rw [hdata, hdata, splitScheme_of_valid _ _ hv1, splitScheme_of_valid _ _ hv2]

/-! ### The claims -/

/-- C1 (amended): when the seed URL carries no fragment, no URL is ever
handed to the pool twice after fragment stripping: the fragment-stripped
links of all tasks ever created during a run are pairwise distinct, for
every network oracle, completion schedule and fuel. -/
theorem dedup_fragment_stripped (cfg : Config) (web : String → FetchResult)
    (sched : Nat → Nat) (fuel : Nat) (hseed : urldefrag cfg.url = cfg.url) :
    ((crawlRun cfg web sched fuel).created.map (fun t => urldefrag t.link)).Nodup :=
  (dedupInv_crawlRun cfg web sched fuel hseed).2

/-- Witness for C1: the concrete configuration `cfgA`, whose seed URL has no
fragment, satisfies the hypothesis, and the resulting run deduplicates. -/
theorem dedup_fragment_stripped_witness :
    ((crawlRun cfgA webDown schedZero 2).created.map (fun t => urldefrag t.link)).Nodup :=
  dedup_fragment_stripped cfgA webDown schedZero 2 (by decide)

/-- Counterexample to C1 as stated: the seed is cached verbatim, not
fragment-stripped, so with seed `http://a/#f` a discovered link `http://a/`
is enqueued again — two tasks whose fragment-stripped URLs coincide. -/
theorem dedup_seed_fragment_cex :
    ¬ (((crawlRun cfgFrag webFrag schedZero 3).created.map
        (fun t => urldefrag t.link)).Nodup) := by
  decide

/-- C2: throughout every run the frontier counter equals the number of
outstanding tasks, hence is never negative, and it is zero exactly when no
task remains queued or running; moreover for every finite link graph (a
list `uni` containing, fragment-stripped, every link any task can discover)
some fuel drains the loop: the counter reaches exactly 0 and the run ends. -/
theorem frontier_counter_and_termination (cfg : Config) (web : String → FetchResult)
    (sched : Nat → Nat) :
    (∀ fuel : Nat, 0 ≤ (crawlRun cfg web sched fuel).pending_tasks ∧
      ((crawlRun cfg web sched fuel).pending_tasks = 0 ↔
        (crawlRun cfg web sched fuel).pending = [])) ∧
    (∀ uni : List String,
      (∀ (u : String) (b : Bool),
        ∀ l ∈ (LinkTask.runWith (mkLinkTask u b cfg.timeout cfg.allow_redirects) (web u)).links,
          urldefrag l ∈ uni) →
      ∃ fuel : Nat, (crawlRun cfg web sched fuel).pending = [] ∧
        (crawlRun cfg web sched fuel).pending_tasks = 0) := by
  constructor
  · intro fuel
    have hc := counterInv_crawlRun cfg web sched fuel
    unfold CounterInv at hc
    refine ⟨by rw [hc]; exact Int.natCast_nonneg _, ?_⟩
    rw [hc]
    constructor
    · intro h
      have h0 : (crawlRun cfg web sched fuel).pending.length = 0 := by exact_mod_cast h
      exact List.length_eq_zero.mp h0
    · intro h
      rw [h]
      rfl
  · intro uni hweb
    refine ⟨crawlMeasure uni (initState cfg), ?_⟩
    exact crawlLoop_terminates uni cfg (urlnetloc cfg.url) web sched hweb _ 0 _
      (freshInv_initState cfg) (by simp [CounterInv, initState]) (Nat.le_refl _)

/-- C3: for every run prefix, the exit status is 1 exactly when at least one
task-level transport error was counted; with no task-level error the status
is 0, whatever the link-level (4xx/5xx) error count is. -/
theorem exit_status_iff_task_errors (cfg : Config) (web : String → FetchResult)
    (sched : Nat → Nat) (fuel : Nat) :
    ((crawlRun cfg web sched fuel).status = 1 ↔
      (crawlRun cfg web sched fuel).st_error_task ≠ 0) ∧
    ((crawlRun cfg web sched fuel).st_error_task = 0 →
      (crawlRun cfg web sched fuel).status = 0) := by
  obtain ⟨h1, h2⟩ := statusInv_crawlRun cfg web sched fuel
  refine ⟨h1, fun hz => ?_⟩
  rcases h2 with h | h
  · exact h
  · exact absurd hz (h1.mp h)

/-- C4: a fresh task's extraction stays empty unless extraction was
requested, the fetch succeeded with a recorded status outside 400–599, and
the content type starts with an HTML/XHTML media type; when all hold, the
links are exactly the anchor hrefs then the image srcs, joined against the
task's own URL. -/
theorem linktask_extraction_gate (t : LinkTask) (f : FetchResult) (hfresh : t.links = []) :
    ((LinkTask.runWith t f).links ≠ [] →
      t.parse_links = true ∧
      ∃ r : Response, f = FetchResult.success r ∧
        ¬ (400 ≤ r.status ∧ r.status < 600) ∧
        contentTypeOk r.contentType = true ∧
        (LinkTask.runWith t f).status = some r.status) ∧
    (∀ r : Response, f = FetchResult.success r → t.parse_links = true →
      ¬ (400 ≤ r.status ∧ r.status < 600) → contentTypeOk r.contentType = true →
      (LinkTask.runWith t f).links =
        r.ahrefs.map (urljoin t.link) ++ r.imgsrcs.map (urljoin t.link)) := by
  cases f with
  | err e =>
    refine ⟨fun hne => absurd hfresh hne, fun r hr => ?_⟩
    cases hr
  | errAfterStatus st e =>
    refine ⟨fun hne => absurd hfresh hne, fun r hr => ?_⟩
    cases hr
  | success r =>
    simp only [LinkTask.runWith]
    by_cases hp : t.parse_links = true
    · by_cases hst : 400 ≤ r.status ∧ r.status < 600
      · rw [if_neg (by simp [hp]), if_pos hst]
        refine ⟨fun hne => absurd hfresh hne, fun r' hr hp2 hst2 => ?_⟩
        injection hr with h
        subst h
        exact absurd hst hst2
      · by_cases hct : contentTypeOk r.contentType = true
        · rw [if_neg (by simp [hp]), if_neg hst, if_neg (by simp [hct])]
          constructor
          · intro _
            exact ⟨hp, r, rfl, hst, hct, rfl⟩
          · intro r' hr _ _ _
            injection hr with h
            subst h
            dsimp only
            rw [hfresh]
            rfl
        · rw [if_neg (by simp [hp]), if_neg hst, if_pos (by simp [hct])]
          refine ⟨fun hne => absurd hfresh hne, fun r' hr hp2 hst2 hct2 => ?_⟩
          injection hr with h
          subst h
          exact absurd hct2 hct
    · rw [if_pos (by simp [hp])]
      refine ⟨fun hne => absurd hfresh hne, fun r' hr hp2 => ?_⟩
      exact absurd hp2 hp

/-- Witness for C4 at a concrete fresh task and a concrete successful
HTML fetch. -/
theorem linktask_extraction_gate_witness :
    ((LinkTask.runWith seedTaskA (webExt cfgA.url)).links ≠ [] →
      seedTaskA.parse_links = true ∧
      ∃ r : Response, webExt cfgA.url = FetchResult.success r ∧
        ¬ (400 ≤ r.status ∧ r.status < 600) ∧
        contentTypeOk r.contentType = true ∧
        (LinkTask.runWith seedTaskA (webExt cfgA.url)).status = some r.status) ∧
    (∀ r : Response, webExt cfgA.url = FetchResult.success r →
      seedTaskA.parse_links = true →
      ¬ (400 ≤ r.status ∧ r.status < 600) → contentTypeOk r.contentType = true →
      (LinkTask.runWith seedTaskA (webExt cfgA.url)).links =
        r.ahrefs.map (urljoin seedTaskA.link) ++ r.imgsrcs.map (urljoin seedTaskA.link)) :=
  linktask_extraction_gate seedTaskA (webExt cfgA.url) rfl

/-- C5: a fresh task executed against any fetch outcome always returns with
the failure captured in its exception slot — `some timeout` exactly for a
timeout, `some` of something exactly for any transport failure, `none` for
a completed response — so no failure escapes the task's run. -/
theorem task_error_captured (t : LinkTask) (f : FetchResult) (hexc : t.exception = none) :
    ((LinkTask.runWith t f).exception = some TaskError.timeout ↔
      f = FetchResult.err TaskError.timeout ∨
        ∃ st : Nat, f = FetchResult.errAfterStatus st TaskError.timeout) ∧
    ((LinkTask.runWith t f).exception.isSome = true ↔
      (∃ e : TaskError, f = FetchResult.err e) ∨
        ∃ (st : Nat) (e : TaskError), f = FetchResult.errAfterStatus st e) := by
  cases f with
  | err e =>
    simp only [LinkTask.runWith]
    constructor <;> simp
  | errAfterStatus st e =>
    simp only [LinkTask.runWith]
    constructor <;> simp
  | success r =>
    simp only [LinkTask.runWith]
    split_ifs <;> constructor <;> simp [hexc]

/-- Witness for C5: a concrete fresh task against a timed-out fetch. -/
theorem task_error_captured_witness :
    ((LinkTask.runWith seedTaskA (webDown cfgA.url)).exception = some TaskError.timeout ↔
      webDown cfgA.url = FetchResult.err TaskError.timeout ∨
        ∃ st : Nat, webDown cfgA.url = FetchResult.errAfterStatus st TaskError.timeout) ∧
    ((LinkTask.runWith seedTaskA (webDown cfgA.url)).exception.isSome = true ↔
      (∃ e : TaskError, webDown cfgA.url = FetchResult.err e) ∨
        ∃ (st : Nat) (e : TaskError), webDown cfgA.url = FetchResult.errAfterStatus st e) :=
  task_error_captured seedTaskA (webDown cfgA.url) rfl

/-- C6: with internal=ignore no task is ever created for a discovered link
whose netloc equals the seed's (the seed task itself apart); and with
external=follow every newly discovered http(s) link with a different netloc
is enqueued with link extraction enabled. -/
theorem policy_ignore_and_follow (cfg : Config) (web : String → FetchResult)
    (sched : Nat → Nat) :
    (cfg.internal = Policy.ignore → ∀ fuel : Nat,
      ∀ t ∈ (crawlRun cfg web sched fuel).created.drop 1,
        urlnetloc t.link ≠ urlnetloc cfg.url) ∧
    (∀ (netloc : String) (s : CrawlState) (raw : String),
      cfg.external = Policy.follow → urldefrag raw ∉ s.link_cache →
      (urlscheme (urldefrag raw) = httpScheme ∨ urlscheme (urldefrag raw) = httpsScheme) →
      urlnetloc (urldefrag raw) ≠ netloc →
      (processLink cfg netloc s raw).created =
        s.created ++ [mkLinkTask (urldefrag raw) true cfg.timeout cfg.allow_redirects]) := by
  constructor
  · intro hint fuel t ht
    exact (extOnlyInv_crawlRun cfg web sched fuel hint).2 t ht
  · intro netloc s raw hext hnc hsch hnet
    unfold processLink
    rw [if_neg hnc, if_neg (not_not_intro hsch), if_neg hnet,
      if_neg (by simp [hext])]
    dsimp only [enqueueNew]
    rw [hext]
    rfl

/-- C7: the loop classifies a fresh http(s) link internal exactly when its
netloc equals the seed's netloc (witnessed by which statistic moves), and
the netloc is unchanged by a trailing slash and by the scheme's spelling:
any two valid schemes (in particular case variants of one scheme) in front
of the same remainder give the same netloc. -/
theorem classification_by_netloc (cfg : Config) (netloc : String) (s : CrawlState)
    (raw : String) :
    (urldefrag raw ∉ s.link_cache →
      (urlscheme (urldefrag raw) = httpScheme ∨ urlscheme (urldefrag raw) = httpsScheme) →
      cfg.internal ≠ Policy.ignore → cfg.external ≠ Policy.ignore →
      (((processLink cfg netloc s raw).st_total_internal = s.st_total_internal + 1 ∧
        (processLink cfg netloc s raw).st_total_external = s.st_total_external) ↔
          urlnetloc (urldefrag raw) = netloc) ∧
      (((processLink cfg netloc s raw).st_total_external = s.st_total_external + 1 ∧
        (processLink cfg netloc s raw).st_total_internal = s.st_total_internal) ↔
          urlnetloc (urldefrag raw) ≠ netloc)) ∧
    (∀ u : String, urlnetloc (u ++ "/") = urlnetloc u) ∧
    (∀ sch1 sch2 rest : String, validSchemeChars sch1.data = true →
      validSchemeChars sch2.data = true →
      sch1.data.map Char.toLower = sch2.data.map Char.toLower →
      urlnetloc (sch1 ++ ":" ++ rest) = urlnetloc (sch2 ++ ":" ++ rest)) := by
  refine ⟨?_, urlnetloc_trailing_slash,
    fun sch1 sch2 rest hv1 hv2 _ => urlnetloc_scheme_case sch1 sch2 rest hv1 hv2⟩
  intro hnc hsch hint hext
  unfold processLink
  rw [if_neg hnc, if_neg (not_not_intro hsch)]
  by_cases hn : urlnetloc (urldefrag raw) = netloc
  · rw [if_pos hn, if_neg hint]
    refine ⟨iff_of_true ⟨rfl, rfl⟩ hn, iff_of_false ?_ (not_not_intro hn)⟩
    intro hx
    have := hx.1
    dsimp only [enqueueNew] at this
    omega
  · rw [if_neg hn, if_neg hext]
    refine ⟨iff_of_false ?_ hn, iff_of_true ⟨rfl, rfl⟩ hn⟩
    intro hx
    have := hx.1
    dsimp only [enqueueNew] at this
    omega

/-- C8: for an error-free completed task, a (status, URL) line is appended
to the report stream precisely when the status is 400–599 or `--print-all`
is on; and in the concrete 404-seed scenario the run emits exactly one
report line, counts one link error, creates no further task and drains to a
zero frontier. -/
theorem report_emission_iff (cfg : Config) (netloc : String) (s : CrawlState)
    (t : LinkTask) :
    (t.exception = none →
      (processTask cfg netloc s t).reports =
        s.reports ++
          (if (400 ≤ t.status.getD 0 ∧ t.status.getD 0 < 600) ∨ cfg.print_all then
            [(t.status.getD 0, t.link)]
          else [])) ∧
    ((crawlRun cfg404 web404 schedZero 2).reports = [(404, cfg404.url)] ∧
      (crawlRun cfg404 web404 schedZero 2).created =
        [mkLinkTask cfg404.url true cfg404.timeout cfg404.allow_redirects] ∧
      (crawlRun cfg404 web404 schedZero 2).st_error_link = 1 ∧
      (crawlRun cfg404 web404 schedZero 2).pending_tasks = 0) := by
  refine ⟨fun hexc => processTask_reports cfg netloc s t hexc, ?_, ?_, ?_, ?_⟩ <;> decide

/-- C9 (amended): the per-request timeout handed to the tasks is the absent
sentinel exactly when the configured value is nonpositive (not only when it
is 0); every positive configured value is passed through unchanged, and
every task a run ever creates carries the run's configured timeout. -/
theorem timeout_sentinel_amended (tv : Int) (cfg : Config) (web : String → FetchResult)
    (sched : Nat → Nat) (fuel : Nat) :
    (computeTimeout tv = none ↔ tv ≤ 0) ∧
    (0 < tv → computeTimeout tv = some tv) ∧
    (∀ t ∈ (crawlRun cfg web sched fuel).created, t.timeout = cfg.timeout) := by
  refine ⟨?_, ?_, timeoutInv_crawlRun cfg web sched fuel⟩
  · unfold computeTimeout
    split_ifs with h
    · exact iff_of_false (by simp) (by omega)
    · exact iff_of_true rfl (by omega)
  · intro h
    unfold computeTimeout
    rw [if_pos h]

/-- Counterexample to C9 as stated: at the configured value -1 the sentinel
is also produced, so "absent exactly when the value is 0" fails. -/
theorem timeout_sentinel_cex :
    ¬ (computeTimeout (-1) = none ↔ (-1 : Int) = 0) := by
  decide

/-- C10: every run's setup enqueues the seed with link extraction on and
pre-counts it as one internal link (total 1, internal 1, external 0),
independently of the configured policies — in particular internal=ignore
does not stop the seed from being fetched and parsed. -/
theorem seed_task_pre_counted (cfg : Config) :
    (initState cfg).pending = [mkLinkTask cfg.url true cfg.timeout cfg.allow_redirects] ∧
    (initState cfg).created = [mkLinkTask cfg.url true cfg.timeout cfg.allow_redirects] ∧
    (mkLinkTask cfg.url true cfg.timeout cfg.allow_redirects).parse_links = true ∧
    (initState cfg).st_total_links = 1 ∧
    (initState cfg).st_total_internal = 1 ∧
    (initState cfg).st_total_external = 0 :=
  ⟨rfl, rfl, rfl, rfl, rfl, rfl⟩

end Crawler404
